import Mathlib

/-!
Verification development for pocketcron (src/main.rs), a minimal cron-style
job scheduler.  The crontab loader (`load_jobs`), the dispatch unit
(`run_job`) and the scheduler loop in `main` are shallowly embedded below;
strings are modelled as `List Char`, timestamps (`DateTime<Local>`) as `Int`,
and the lazy schedule iterator (`OwnedScheduleIterator`) as the list of
timestamps it has yet to yield (an empty list models an exhausted iterator,
whose `next()` returns `None`).
-/

namespace Pocketcron

/-! ### Crontab-line parsing (`load_jobs`, src/main.rs lines 101-150) -/

/-- Model of Rust `str::trim`: remove whitespace from both ends. -/
def trimList (s : List Char) : List Char :=
  ((s.dropWhile Char.isWhitespace).reverse.dropWhile Char.isWhitespace).reverse

/-- Model of `line.split_whitespace().nth(n)` combined with the pointer
arithmetic at line 123 of src/main.rs: the suffix of `s` that starts at the
first character of the `n`-th (0-based) whitespace-separated token, or `none`
when there is no such token. -/
def nthTokenSuffix : Nat → List Char → Option (List Char)
  | 0, s =>
    match s.dropWhile Char.isWhitespace with
    | [] => none
    | c :: rest => some (c :: rest)
  | n + 1, s =>
    match s.dropWhile Char.isWhitespace with
    | [] => none
    | c :: rest => nthTokenSuffix n ((c :: rest).dropWhile (fun d => !d.isWhitespace))

/-- Number of whitespace-separated tokens, tracked with a flag telling whether
the previous character was a token boundary. -/
def countTokensAux : Bool → List Char → Nat
  | _, [] => 0
  | prevWs, c :: rest =>
    if c.isWhitespace then countTokensAux true rest
    else (if prevWs then 1 else 0) + countTokensAux false rest

/-- Number of whitespace-separated tokens of a character list, as
`str::split_whitespace` would produce them. -/
def countTokens (s : List Char) : Nat := countTokensAux true s

/-- Outcome of processing one crontab line in `load_jobs`:
skipped (blank or comment), fatal "not enough elements" error (the code calls
`exit(1)` after the diagnostic), or a job line split into the schedule portion
and the command portion. -/
inductive LineResult where
  | skip : LineResult
  | tooFew : LineResult
  | job : List Char → List Char → LineResult
  deriving DecidableEq, Repr

/-- Model of the per-line logic of `load_jobs` (src/main.rs lines 101-126):
trim, skip blank lines and comments, locate the start of the command as the
suffix beginning at whitespace-separated token 1 (`@`-alias form) or token 5
(bare five-field form), and slice the trimmed line there into schedule text
and command text. -/
def parseLine (raw : List Char) : LineResult :=
  match trimList raw with
  | [] => LineResult.skip
  | c :: rest =>
    if c = '#' then LineResult.skip
    else
      match nthTokenSuffix (if c = '@' then 1 else 5) (c :: rest) with
      | none => LineResult.tooFew
      | some cmd =>
        LineResult.job ((c :: rest).take ((c :: rest).length - cmd.length)) cmd

/-- Model of the schedule-string normalization at src/main.rs lines 127-132:
an `@`-alias is passed through unchanged, a bare five-field schedule is
wrapped as `0 <fields> *` because the `cron` crate expects seconds and year
fields. -/
def schedExpr (sched : List Char) : List Char :=
  if sched.head? = some '@' then sched
  else ('0' :: ' ' :: sched) ++ [' ', '*']

/-- A job as created by the loader: sequential 1-based id, the normalized
schedule expression handed to the external parser, and the command text. -/
structure JobInit where
  id : Nat
  schedule : List Char
  command : List Char
  deriving DecidableEq, Repr

/-- A fatal load-time error: the diagnostic names the file and the 0-based
line number (`eprintln!("{}:{}: error: ...")`) and the process exits with
status 1. -/
inductive LoadErr where
  | notEnough : List Char → Nat → LoadErr
  | badSchedule : List Char → Nat → LoadErr
  deriving DecidableEq, Repr

/-- Model of the `load_jobs` line loop; `ps` stands for the external `cron`
crate's schedule parser (out of scope per the spec, abstracted as a predicate
telling whether an expression parses), `lineNo` is the 0-based enumeration
index and `nextId` the id the next created job receives (`jobs.len() + 1`). -/
def loadLinesAux (ps : List Char → Bool) (file : List Char) :
    List (List Char) → Nat → Nat → Except LoadErr (List JobInit)
  | [], _, _ => Except.ok []
  | raw :: rest, lineNo, nextId =>
    match parseLine raw with
    | LineResult.skip => loadLinesAux ps file rest (lineNo + 1) nextId
    | LineResult.tooFew => Except.error (LoadErr.notEnough file lineNo)
    | LineResult.job sched cmd =>
      if ps (schedExpr sched) then
        match loadLinesAux ps file rest (lineNo + 1) (nextId + 1) with
        | Except.error e => Except.error e
        | Except.ok js => Except.ok (⟨nextId, schedExpr sched, cmd⟩ :: js)
      else Except.error (LoadErr.badSchedule file lineNo)

/-- Loading one crontab file starting from an empty job table: line numbers
start at 0 (Rust `enumerate`), job ids at 1 (`jobs.len() + 1`). -/
def load_jobs (ps : List Char → Bool) (file : List Char)
    (lines : List (List Char)) : Except LoadErr (List JobInit) :=
  loadLinesAux ps file lines 0 1

/-! ### Scheduler state and dispatch (`main` loop and `run_job`) -/

/-- The `Job` structure of src/main.rs.  `upcoming` is the remaining output of
the schedule iterator (`next()` yields its head, an empty list models an
exhausted iterator), `next` is the cached next fire time, `is_running` the
overlap-prevention flag. -/
structure Job where
  id : Nat
  upcoming : List Int
  next : Option Int
  command : List Char
  is_running : Bool
  deriving DecidableEq, Repr

/-- Model of the gate at the top of the thread spawned by `run_job`
(src/main.rs lines 156-170): if `is_running` is already true the thread
returns at once (no spawn, no state change, result `false`); otherwise it
sets `is_running := true` before any process work and reports `true`
(the command is then spawned and awaited). -/
def run_job (j : Job) : Job × Bool :=
  if j.is_running then (j, false)
  else ({ j with is_running := true }, true)

/-- Model of the end of the `run_job` thread (src/main.rs lines 187-188):
regardless of the spawn/wait outcome, `is_running` is reset to false. -/
def finishJob (j : Job) : Job := { j with is_running := false }

/-- Model of the catch-up `while` loop of the main loop (src/main.rs lines
66-68), entered with a due `next`: keep drawing `upcoming.next()` while the
drawn value is still `<= now`; stop at the first strictly-future value (which
becomes the new `next`) or at iterator exhaustion (`next` becomes `none`). -/
def drawFuture (now : Int) : List Int → Option Int × List Int
  | [] => (none, [])
  | h :: rest => if now ≥ h then drawFuture now rest else (some h, rest)

/-- Result of the main loop's treatment of one job in one iteration. -/
structure StepOut where
  job : Job
  nextMin : Int
  dispatches : Nat
  deriving DecidableEq, Repr

/-- Model of the per-job body of the main loop (src/main.rs lines 48-69):
a job with no `next` is skipped; a strictly-future `next` is folded into the
running minimum `next_min`; otherwise the job is due — `run_job` is invoked
once and the schedule is advanced past every fire time `<= now`.  The due
branch leaves `next_min` untouched, exactly as the code does. -/
def stepJobIter (now nextMin : Int) (j : Job) : StepOut :=
  match j.next with
  | none => ⟨j, nextMin, 0⟩
  | some t =>
    if now < t then ⟨j, min t nextMin, 0⟩
    else
      let r := drawFuture now j.upcoming
      ⟨{ j with next := r.1, upcoming := r.2 }, nextMin, 1⟩

/-- The maximum idle sleep, `Duration::minutes(1)`, in seconds. -/
def oneMinute : Int := 60

/-- One pass of the main loop over the job table, threading `next_min`
through the jobs in table order. -/
def schedIterAux (now : Int) : List Job → Int → List Job × Int
  | [], m => ([], m)
  | j :: rest, m =>
    let s := stepJobIter now m j
    let r := schedIterAux now rest s.nextMin
    (s.job :: r.1, r.2)

/-- One iteration of the main loop (src/main.rs lines 42-69): starting from
`next_min = now + 1 minute`, process every job and return the updated table
and the final `next_min`. -/
def schedIter (now : Int) (jobs : List Job) : List Job × Int :=
  schedIterAux now jobs (now + oneMinute)

/-- Model of `chrono::Duration::to_std` as used at src/main.rs line 75: the
conversion fails exactly on a negative duration.  A `none` result models the
`Err` case, on which the code's `.expect("unexpected negative sleep")`
panics instead of sleeping. -/
def to_std (d : Int) : Option Int :=
  if d < 0 then none else some d

/-- The sleep duration computed at the end of a loop iteration. -/
def iterDelay (now : Int) (jobs : List Job) : Int :=
  (schedIter now jobs).2 - now

/-- Several iterations of the main loop, one per captured `now` value. -/
def runLoop (nows : List Int) (jobs : List Job) : List Job :=
  nows.foldl (fun js n => (schedIter n js).1) jobs

/-- A concrete job used by the witnesses. -/
def jobA : Job :=
  { id := 1, upcoming := [60, 90, 150, 160], next := some 50,
    command := "echo hi".toList, is_running := false }

/-- A concrete exhausted job used by the C7 witness. -/
def jobExhausted : Job :=
  { id := 2, upcoming := [], next := none, command := "echo bye".toList,
    is_running := false }

example : parseLine ("# a comment".toList) = LineResult.skip := by decide
example : parseLine ("   ".toList) = LineResult.skip := by decide
example : parseLine ("1 2 3 4".toList) = LineResult.tooFew := by decide
example : parseLine ("@hourly".toList) = LineResult.tooFew := by decide
example : parseLine ("0 12 * * 1".toList) = LineResult.tooFew := by decide
example :
    parseLine ("* * * * *  echo  hi".toList) =
      LineResult.job ("* * * * *  ".toList) ("echo  hi".toList) := by decide
example :
    parseLine ("@hourly echo bye".toList) =
      LineResult.job ("@hourly ".toList) ("echo bye".toList) := by decide
example :
    parseLine (" * * * * * echo hi   ".toList) =
      LineResult.job ("* * * * * ".toList) ("echo hi".toList) := by decide

/-! ### Lemmas about tokenization and trimming -/

theorem dropWhile_head_false {p : Char → Bool} {s rest : List Char} {c : Char}
    (h : s.dropWhile p = c :: rest) : p c = false := by
  have hx := List.head?_dropWhile_not p s
  rw [h] at hx
  simpa using hx

theorem nthTokenSuffix_isSuffix :
    ∀ {n : Nat} {s cmd : List Char}, nthTokenSuffix n s = some cmd → cmd <:+ s := by
  intro n
  induction n with
  | zero =>
    intro s cmd h
    simp only [nthTokenSuffix] at h
    cases hd : s.dropWhile Char.isWhitespace with
    | nil => rw [hd] at h; cases h
    | cons c rest =>
      rw [hd] at h
      simp only [Option.some.injEq] at h
      rw [← h, ← hd]
      exact List.dropWhile_suffix _
  | succ n ih =>
    intro s cmd h
    simp only [nthTokenSuffix] at h
    cases hd : s.dropWhile Char.isWhitespace with
    | nil => rw [hd] at h; cases h
    | cons c rest =>
      rw [hd] at h
      have h1 := ih h
      have h2 : (c :: rest).dropWhile (fun d => !d.isWhitespace) <:+ (c :: rest) :=
        List.dropWhile_suffix _
      have h3 : (c :: rest) <:+ s := by
        rw [← hd]; exact List.dropWhile_suffix _
      exact h1.trans (h2.trans h3)

theorem nthTokenSuffix_head :
    ∀ {n : Nat} {s cmd : List Char}, nthTokenSuffix n s = some cmd →
      ∃ c rest, cmd = c :: rest ∧ c.isWhitespace = false := by
  intro n
  induction n with
  | zero =>
    intro s cmd h
    simp only [nthTokenSuffix] at h
    cases hd : s.dropWhile Char.isWhitespace with
    | nil => rw [hd] at h; cases h
    | cons c rest =>
      rw [hd] at h
      simp only [Option.some.injEq] at h
      exact ⟨c, rest, h.symm, dropWhile_head_false hd⟩
  | succ n ih =>
    intro s cmd h
    simp only [nthTokenSuffix] at h
    cases hd : s.dropWhile Char.isWhitespace with
    | nil => rw [hd] at h; cases h
    | cons c rest =>
      rw [hd] at h
      exact ih h

theorem countTokensAux_boundary {s rest : List Char} {c : Char}
    (h : s.dropWhile Char.isWhitespace = c :: rest) :
    countTokensAux true s = 1 + countTokensAux false rest := by
  induction s with
  | nil => cases h
  | cons a s ih =>
    rw [List.dropWhile_cons] at h
    by_cases ha : a.isWhitespace = true
    · rw [if_pos ha] at h
      simp only [countTokensAux, ha, if_pos]
      exact ih h
    · rw [if_neg ha] at h
      obtain ⟨rfl, rfl⟩ : a = c ∧ s = rest := by
        injection h with h1 h2; exact ⟨h1, h2⟩
      simp only [countTokensAux, Bool.not_eq_true] at ha ⊢
      rw [ha]
      simp

theorem countTokensAux_false_dropToken (rest : List Char) :
    countTokensAux false rest =
      countTokensAux true (rest.dropWhile (fun d => !d.isWhitespace)) := by
  induction rest with
  | nil => rfl
  | cons d r ih =>
    by_cases hw : d.isWhitespace = true
    · have h1 : countTokensAux false (d :: r) = countTokensAux true r := by
        simp [countTokensAux, hw]
      have h2 : (d :: r).dropWhile (fun x => !x.isWhitespace) = d :: r := by
        rw [List.dropWhile_cons, if_neg (by simp [hw])]
      rw [h1, h2]
      simp [countTokensAux, hw]
    · rw [Bool.not_eq_true] at hw
      have h1 : countTokensAux false (d :: r) = countTokensAux false r := by
        simp [countTokensAux, hw]
      have h2 : (d :: r).dropWhile (fun x => !x.isWhitespace) =
          r.dropWhile (fun x => !x.isWhitespace) := by
        rw [List.dropWhile_cons, if_pos (by simp [hw])]
      rw [h1, h2, ih]

theorem countTokens_le_nthTokenSuffix_none :
    ∀ (n : Nat) (s : List Char), countTokens s ≤ n → nthTokenSuffix n s = none := by
  intro n
  induction n with
  | zero =>
    intro s h
    simp only [nthTokenSuffix]
    cases hd : s.dropWhile Char.isWhitespace with
    | nil => rfl
    | cons c rest =>
      have hb := countTokensAux_boundary hd
      unfold countTokens at h
      omega
  | succ n ih =>
    intro s h
    simp only [nthTokenSuffix]
    cases hd : s.dropWhile Char.isWhitespace with
    | nil => rfl
    | cons c rest =>
      have hb := countTokensAux_boundary hd
      have hc : c.isWhitespace = false := dropWhile_head_false hd
      show nthTokenSuffix n ((c :: rest).dropWhile (fun d => !d.isWhitespace)) = none
      have hdrop : (c :: rest).dropWhile (fun d => !d.isWhitespace) =
          rest.dropWhile (fun d => !d.isWhitespace) := by
        rw [List.dropWhile_cons, if_pos (by simp [hc])]
      rw [hdrop]
      apply ih
      unfold countTokens at h ⊢
      rw [← countTokensAux_false_dropToken]
      omega

theorem trimList_getLast_not_ws {s : List Char} {c : Char}
    (h : (trimList s).getLast? = some c) : c.isWhitespace = false := by
  unfold trimList at h
  rw [List.getLast?_reverse] at h
  cases hd : (s.dropWhile Char.isWhitespace).reverse.dropWhile Char.isWhitespace with
  | nil => rw [hd] at h; cases h
  | cons a t =>
    rw [hd] at h
    simp only [List.head?_cons, Option.some.injEq] at h
    rw [← h]
    exact dropWhile_head_false hd

theorem parseLine_job_inv {raw sched cmd : List Char}
    (h : parseLine raw = LineResult.job sched cmd) :
    ∃ c rest, trimList raw = c :: rest ∧ c ≠ '#' ∧
      nthTokenSuffix (if c = '@' then 1 else 5) (c :: rest) = some cmd ∧
      sched = (c :: rest).take ((c :: rest).length - cmd.length) := by
  unfold parseLine at h
  cases htr : trimList raw with
  | nil => rw [htr] at h; cases h
  | cons c rest =>
    rw [htr] at h
    have h2 : (if c = '#' then LineResult.skip
        else
          match nthTokenSuffix (if c = '@' then 1 else 5) (c :: rest) with
          | none => LineResult.tooFew
          | some cmd0 =>
            LineResult.job ((c :: rest).take ((c :: rest).length - cmd0.length)) cmd0) =
        LineResult.job sched cmd := h
    by_cases hc : c = '#'
    · rw [if_pos hc] at h2; cases h2
    · rw [if_neg hc] at h2
      cases hn : nthTokenSuffix (if c = '@' then 1 else 5) (c :: rest) with
      | none => rw [hn] at h2; cases h2
      | some cmd0 =>
        rw [hn] at h2
        simp only [LineResult.job.injEq] at h2
        exact ⟨c, rest, rfl, hc, by rw [hn, h2.2], by rw [← h2.1, h2.2]⟩

theorem loadLinesAux_skip_lead (ps : List Char → Bool) (file : List Char)
    (pre l : List (List Char)) (k n : Nat) :
    (∀ r ∈ pre, parseLine r = LineResult.skip) →
    loadLinesAux ps file (pre ++ l) k n = loadLinesAux ps file l (k + pre.length) n := by
  induction pre generalizing k with
  | nil => intro _; simp
  | cons r pre ih =>
    intro h
    have hr : parseLine r = LineResult.skip := h r (by simp)
    have hrest : ∀ x ∈ pre, parseLine x = LineResult.skip := fun x hx => h x (by simp [hx])
    calc loadLinesAux ps file ((r :: pre) ++ l) k n
        = loadLinesAux ps file (pre ++ l) (k + 1) n := by
          simp only [List.cons_append, loadLinesAux, hr]
          rfl
      _ = loadLinesAux ps file l (k + 1 + pre.length) n := ih (k + 1) hrest
      _ = loadLinesAux ps file l (k + (r :: pre).length) n := by
          have harith : k + 1 + pre.length = k + (r :: pre).length := by
            simp [List.length_cons]; omega
          rw [harith]

/-! ### Claim theorems about the loader -/

/-- C4: for every line the loader accepts, the extracted command is exactly
the verbatim substring of the trimmed line after the schedule portion: the
boundary is the start of whitespace-separated token 1 (`@` form) or 5 (bare
form), the command is never re-tokenized, and schedule text plus command text
reproduce the trimmed line character for character. -/
theorem c4_command_verbatim_suffix (raw sched cmd : List Char)
    (h : parseLine raw = LineResult.job sched cmd) :
    sched ++ cmd = trimList raw ∧
    cmd = (trimList raw).drop sched.length ∧
    ∃ n, (n = 1 ∨ n = 5) ∧ nthTokenSuffix n (trimList raw) = some cmd := by
  obtain ⟨c, rest, htr, hc, hn, hs⟩ := parseLine_job_inv h
  obtain ⟨pre, hpre⟩ := nthTokenSuffix_isSuffix hn
  have hlen : (c :: rest).length - cmd.length = pre.length := by
    rw [← hpre, List.length_append]
    omega
  have hsched : sched = pre := by
    rw [hs, hlen, ← hpre, List.take_left]
  have happ : sched ++ cmd = trimList raw := by
    rw [hsched, htr]; exact hpre
  refine ⟨happ, ?_, ?_⟩
  · rw [← happ, List.drop_left]
  · refine ⟨if c = '@' then 1 else 5, ?_, ?_⟩
    · by_cases hat : c = '@' <;> simp [hat]
    · rw [htr]; exact hn

/-- Witness for C4 at the concrete line with doubled inner spaces. -/
theorem c4_command_verbatim_suffix_witness :
    "* * * * *  ".toList ++ "echo  hi".toList = trimList ("* * * * *  echo  hi".toList) :=
  (c4_command_verbatim_suffix ("* * * * *  echo  hi".toList) ("* * * * *  ".toList)
    ("echo  hi".toList) (by decide)).1

/-- C9: the loader trims the whole line before locating the command and the
command starts at a non-whitespace token boundary, so a stored command is
nonempty and never begins or ends with whitespace. -/
theorem c9_command_no_outer_ws (raw sched cmd : List Char)
    (h : parseLine raw = LineResult.job sched cmd) :
    cmd ≠ [] ∧
    (∀ c, cmd.head? = some c → c.isWhitespace = false) ∧
    (∀ c, cmd.getLast? = some c → c.isWhitespace = false) := by
  obtain ⟨c0, rest, htr, hc0, hn, hs⟩ := parseLine_job_inv h
  obtain ⟨ch, ct, hcmd, hch⟩ := nthTokenSuffix_head hn
  obtain ⟨pre, hpre⟩ := nthTokenSuffix_isSuffix hn
  refine ⟨by rw [hcmd]; simp, ?_, ?_⟩
  · intro c hc
    rw [hcmd] at hc
    simp only [List.head?_cons, Option.some.injEq] at hc
    rw [← hc]; exact hch
  · intro c hc
    have hlast : (trimList raw).getLast? = some c := by
      rw [htr, ← hpre, List.getLast?_append]
      simp [hc]
    exact trimList_getLast_not_ws hlast

/-- Witness for C9 at a line with leading and trailing whitespace: the stored
command "echo hi" starts with a non-whitespace character and, unlike the raw
line, ends with one too. -/
theorem c9_command_no_outer_ws_witness :
    ('e' : Char).isWhitespace = false ∧ ('i' : Char).isWhitespace = false :=
  ⟨(c9_command_no_outer_ws (" * * * * * echo hi   ".toList) ("* * * * * ".toList)
      ("echo hi".toList) (by decide)).2.1 'e' (by decide),
   (c9_command_no_outer_ws (" * * * * * echo hi   ".toList) ("* * * * * ".toList)
      ("echo hi".toList) (by decide)).2.2 'i' (by decide)⟩

/-- C6: a bare-form line with fewer than five whitespace-separated fields has
no token at index 5, so `parseLine` takes the fatal "not enough elements"
branch; loading a file containing such a line (after any skipped lines) stops
with an error naming the file and the 0-based line number and yields no job
list (the process exits with status 1). -/
theorem c6_too_few_fields_fatal :
    (∀ raw c rest, trimList raw = c :: rest → c ≠ '#' → c ≠ '@' →
      countTokens (c :: rest) < 5 → parseLine raw = LineResult.tooFew) ∧
    (∀ (ps : List Char → Bool) (file : List Char) (pre : List (List Char))
        (raw : List Char) (rest : List (List Char)),
      (∀ r ∈ pre, parseLine r = LineResult.skip) →
      parseLine raw = LineResult.tooFew →
      load_jobs ps file (pre ++ raw :: rest) =
        Except.error (LoadErr.notEnough file pre.length)) := by
  constructor
  · intro raw c rest htr hc hat hcount
    have hnone : nthTokenSuffix (if c = '@' then 1 else 5) (c :: rest) = none := by
      rw [if_neg hat]
      exact countTokens_le_nthTokenSuffix_none 5 _ (by omega)
    unfold parseLine
    rw [htr]
    show (if c = '#' then LineResult.skip
        else
          match nthTokenSuffix (if c = '@' then 1 else 5) (c :: rest) with
          | none => LineResult.tooFew
          | some cmd0 =>
            LineResult.job ((c :: rest).take ((c :: rest).length - cmd0.length)) cmd0) =
        LineResult.tooFew
    rw [if_neg hc, hnone]
  · intro ps file pre raw rest hpre hraw
    unfold load_jobs
    rw [loadLinesAux_skip_lead ps file pre (raw :: rest) 0 1 hpre]
    simp only [loadLinesAux, hraw, Nat.zero_add]

/-- Witness for C6: a comment line followed by a four-field line makes loading
fail with the "not enough elements" error at 0-based line 1. -/
theorem c6_too_few_fields_fatal_witness :
    parseLine ("1 2 3 4".toList) = LineResult.tooFew ∧
    load_jobs (fun _ => true) ("crontab".toList) ["# c".toList, "1 2 3 4".toList] =
      Except.error (LoadErr.notEnough ("crontab".toList) 1) :=
  ⟨c6_too_few_fields_fatal.1 ("1 2 3 4".toList) '1' (" 2 3 4".toList) (by decide)
      (by decide) (by decide) (by decide),
   c6_too_few_fields_fatal.2 (fun _ => true) ("crontab".toList) ["# c".toList]
      ("1 2 3 4".toList) [] (by decide) (by decide)⟩

/-- C10: a line with a complete schedule but no command text after it — a lone
`@`-alias token, or exactly five schedule fields and nothing more — fails
through the same "not enough elements" path as a short schedule: `parseLine`
returns the same `tooFew` result and loading emits the same error naming the
file and the 0-based line number before exiting non-zero. -/
theorem c10_missing_command_fatal :
    (∀ raw rest, trimList raw = '@' :: rest → countTokens ('@' :: rest) = 1 →
      parseLine raw = LineResult.tooFew) ∧
    (∀ raw c rest, trimList raw = c :: rest → c ≠ '#' → c ≠ '@' →
      countTokens (c :: rest) = 5 → parseLine raw = LineResult.tooFew) ∧
    (∀ (ps : List Char → Bool) (file : List Char) (raw : List Char)
        (rest : List (List Char)),
      parseLine raw = LineResult.tooFew →
      load_jobs ps file (raw :: rest) = Except.error (LoadErr.notEnough file 0)) := by
  refine ⟨?_, ?_, ?_⟩
  · intro raw rest htr hcount
    have hnone : nthTokenSuffix (if ('@' : Char) = '@' then 1 else 5) ('@' :: rest) = none := by
      rw [if_pos rfl]
      exact countTokens_le_nthTokenSuffix_none 1 _ (by omega)
    unfold parseLine
    rw [htr]
    show (if ('@' : Char) = '#' then LineResult.skip
        else
          match nthTokenSuffix (if ('@' : Char) = '@' then 1 else 5) ('@' :: rest) with
          | none => LineResult.tooFew
          | some cmd0 =>
            LineResult.job (('@' :: rest).take (('@' :: rest).length - cmd0.length)) cmd0) =
        LineResult.tooFew
    rw [if_neg (by decide), hnone]
  · intro raw c rest htr hc hat hcount
    have hnone : nthTokenSuffix (if c = '@' then 1 else 5) (c :: rest) = none := by
      rw [if_neg hat]
      exact countTokens_le_nthTokenSuffix_none 5 _ (by omega)
    unfold parseLine
    rw [htr]
    show (if c = '#' then LineResult.skip
        else
          match nthTokenSuffix (if c = '@' then 1 else 5) (c :: rest) with
          | none => LineResult.tooFew
          | some cmd0 =>
            LineResult.job ((c :: rest).take ((c :: rest).length - cmd0.length)) cmd0) =
        LineResult.tooFew
    rw [if_neg hc, hnone]
  · intro ps file raw rest hraw
    unfold load_jobs
    simp only [loadLinesAux, hraw]

/-- Witness for C10: the lone alias `@hourly` and the commandless five-field
line both fail, and loading the alias-only file reports line 0. -/
theorem c10_missing_command_fatal_witness :
    parseLine ("@hourly".toList) = LineResult.tooFew ∧
    parseLine ("0 12 * * 1".toList) = LineResult.tooFew ∧
    load_jobs (fun _ => true) ("crontab".toList) ["@hourly".toList] =
      Except.error (LoadErr.notEnough ("crontab".toList) 0) :=
  ⟨c10_missing_command_fatal.1 ("@hourly".toList) ("hourly".toList) (by decide) (by decide),
   c10_missing_command_fatal.2.1 ("0 12 * * 1".toList) '0' (" 12 * * 1".toList)
      (by decide) (by decide) (by decide) (by decide),
   c10_missing_command_fatal.2.2 (fun _ => true) ("crontab".toList) ("@hourly".toList) []
      (by decide)⟩

/-! ### Lemmas about the scheduler loop -/

theorem drawFuture_fst (now : Int) (l : List Int) :
    (drawFuture now l).1 = l.find? (fun x => decide (now < x)) := by
  induction l with
  | nil => rfl
  | cons h rest ih =>
    by_cases hlt : now < h
    · have hge : ¬ now ≥ h := by omega
      simp [drawFuture, if_neg hge, hlt]
    · have hge : now ≥ h := by omega
      simp [drawFuture, if_pos hge, ih, hlt]

theorem stepJobIter_none {now m : Int} {j : Job} (h : j.next = none) :
    stepJobIter now m j = ⟨j, m, 0⟩ := by
  simp [stepJobIter, h]

theorem stepJobIter_future {now m t : Int} {j : Job} (h : j.next = some t) (hf : now < t) :
    stepJobIter now m j = ⟨j, min t m, 0⟩ := by
  simp [stepJobIter, h, hf]

theorem stepJobIter_due {now m t : Int} {j : Job} (h : j.next = some t) (hd : ¬ now < t) :
    stepJobIter now m j =
      ⟨{ j with next := (drawFuture now j.upcoming).1,
                upcoming := (drawFuture now j.upcoming).2 }, m, 1⟩ := by
  simp [stepJobIter, h, hd]

theorem stepJobIter_nextMin_le (now m : Int) (j : Job) :
    (stepJobIter now m j).nextMin ≤ m := by
  cases hn : j.next with
  | none => rw [stepJobIter_none hn]
  | some t =>
    by_cases hf : now < t
    · rw [stepJobIter_future hn hf]
      exact min_le_right t m
    · rw [stepJobIter_due hn hf]

theorem stepJobIter_now_lt (now m : Int) (j : Job) (h : now < m) :
    now < (stepJobIter now m j).nextMin := by
  cases hn : j.next with
  | none => rw [stepJobIter_none hn]; exact h
  | some t =>
    by_cases hf : now < t
    · rw [stepJobIter_future hn hf]
      exact lt_min hf h
    · rw [stepJobIter_due hn hf]; exact h

theorem schedIterAux_nil (now m : Int) : schedIterAux now [] m = ([], m) := rfl

theorem schedIterAux_cons (now : Int) (j : Job) (rest : List Job) (m : Int) :
    schedIterAux now (j :: rest) m =
      ((stepJobIter now m j).job ::
        (schedIterAux now rest (stepJobIter now m j).nextMin).1,
       (schedIterAux now rest (stepJobIter now m j).nextMin).2) := rfl

theorem schedIterAux_nextMin_le (now : Int) (l : List Job) (m : Int) :
    (schedIterAux now l m).2 ≤ m := by
  induction l generalizing m with
  | nil => rw [schedIterAux_nil]
  | cons j rest ih =>
    rw [schedIterAux_cons]
    exact le_trans (ih _) (stepJobIter_nextMin_le now m j)

theorem schedIterAux_now_lt (now : Int) (l : List Job) (m : Int) (h : now < m) :
    now < (schedIterAux now l m).2 := by
  induction l generalizing m with
  | nil => rw [schedIterAux_nil]; exact h
  | cons j rest ih =>
    rw [schedIterAux_cons]
    exact ih _ (stepJobIter_now_lt now m j h)

theorem schedIterAux_getElem? (now : Int) (l : List Job) :
    ∀ (m : Int) (i : Nat) (j : Job), l[i]? = some j →
      ∃ m2, ((schedIterAux now l m).1)[i]? = some ((stepJobIter now m2 j).job) := by
  induction l with
  | nil => intro m i j h; simp at h
  | cons j0 rest ih =>
    intro m i j h
    cases i with
    | zero =>
      simp only [List.getElem?_cons_zero, Option.some.injEq] at h
      rw [schedIterAux_cons]
      exact ⟨m, by simp [h]⟩
    | succ i =>
      simp only [List.getElem?_cons_succ] at h
      rw [schedIterAux_cons]
      obtain ⟨m2, hm⟩ := ih _ i j h
      exact ⟨m2, by simpa using hm⟩

theorem schedIterAux_preserve_none (now : Int) (l : List Job) (m : Int) (i : Nat) (j : Job)
    (hget : l[i]? = some j) (hn : j.next = none) :
    ((schedIterAux now l m).1)[i]? = some j := by
  obtain ⟨m2, hm⟩ := schedIterAux_getElem? now l m i j hget
  rwa [stepJobIter_none hn] at hm

theorem runLoop_preserve_none (nows : List Int) (jobs : List Job) (i : Nat) (j : Job)
    (hget : jobs[i]? = some j) (hn : j.next = none) :
    (runLoop nows jobs)[i]? = some j := by
  induction nows generalizing jobs with
  | nil => simpa [runLoop] using hget
  | cons nw nows ih =>
    have h1 : ((schedIter nw jobs).1)[i]? = some j :=
      schedIterAux_preserve_none nw jobs (nw + oneMinute) i j hget hn
    have h2 := ih ((schedIter nw jobs).1) h1
    simpa [runLoop, List.foldl_cons] using h2

/-! ### Claim theorems about dispatch and the scheduler loop -/

/-- C1: `run_job` never lets two executions of one job overlap: if the job's
`is_running` flag is already true the spawned thread returns immediately,
without starting a process and without touching the job's state; otherwise it
sets `is_running` to true before any process work (leaving every other field
unchanged), a second invocation taken while the first is unfinished is a
no-op, and on completion `is_running` is reset to false. -/
theorem c1_run_job_no_overlap (j : Job) :
    (j.is_running = true → run_job j = (j, false)) ∧
    (j.is_running = false →
      (run_job j).2 = true ∧
      (run_job j).1.is_running = true ∧
      (run_job j).1.id = j.id ∧
      (run_job j).1.next = j.next ∧
      (run_job j).1.upcoming = j.upcoming ∧
      (run_job j).1.command = j.command ∧
      run_job (run_job j).1 = ((run_job j).1, false) ∧
      (finishJob (run_job j).1).is_running = false) := by
  constructor
  · intro h
    simp [run_job, h]
  · intro h
    simp [run_job, finishJob, h]

/-- Witness for C1 at a concrete running and non-running job. -/
theorem c1_run_job_no_overlap_witness :
    run_job { jobA with is_running := true } = ({ jobA with is_running := true }, false) ∧
    (run_job jobA).2 = true :=
  ⟨(c1_run_job_no_overlap { jobA with is_running := true }).1 rfl,
   ((c1_run_job_no_overlap jobA).2 rfl).1⟩

/-- C2: a job whose `next` fire time is not after `now` is dispatched exactly
once in that loop iteration, and its schedule cursor is then drawn until the
cached `next` is the first remaining fire time strictly after `now` (or `none`
if the cursor runs out), independent of the `next_min` accumulator value; the
job table after the iteration holds exactly that updated job at the same
position. -/
theorem c2_due_job_single_dispatch (now : Int) (jobs : List Job) (i : Nat) (j : Job)
    (t : Int) (hget : jobs[i]? = some j) (hnext : j.next = some t) (hdue : t ≤ now) :
    ∀ m, (stepJobIter now m j).dispatches = 1 ∧
      (stepJobIter now m j).job.next = j.upcoming.find? (fun x => decide (now < x)) ∧
      ((stepJobIter now m j).job.next = none ∨
        ∃ u, (stepJobIter now m j).job.next = some u ∧ now < u) ∧
      ((schedIter now jobs).1)[i]? = some ((stepJobIter now m j).job) := by
  intro m
  have hd : ¬ now < t := by omega
  have hstep := stepJobIter_due (m := m) hnext hd
  refine ⟨by rw [hstep], ?_, ?_, ?_⟩
  · rw [hstep]
    exact drawFuture_fst now j.upcoming
  · rw [hstep]
    cases hfind : (drawFuture now j.upcoming).1 with
    | none => exact Or.inl rfl
    | some u =>
      refine Or.inr ⟨u, rfl, ?_⟩
      rw [drawFuture_fst] at hfind
      have := List.find?_some hfind
      simpa using this
  · obtain ⟨m2, hm⟩ := schedIterAux_getElem? now jobs (now + oneMinute) i j hget
    rw [stepJobIter_due (m := m2) hnext hd] at hm
    rw [hstep]
    exact hm

/-- Witness for C2: at `now = 100` a job due since 50 with cursor
`[60, 90, 150, 160]` is dispatched once and ends with `next = some 150`. -/
theorem c2_due_job_single_dispatch_witness :
    (stepJobIter 100 160 jobA).dispatches = 1 ∧
    (stepJobIter 100 160 jobA).job.next =
      jobA.upcoming.find? (fun x => decide ((100 : Int) < x)) ∧
    ((schedIter 100 [jobA]).1)[0]? = some ((stepJobIter 100 160 jobA).job) :=
  ⟨(c2_due_job_single_dispatch 100 [jobA] 0 jobA 50 rfl rfl (by decide) 160).1,
   (c2_due_job_single_dispatch 100 [jobA] 0 jobA 50 rfl rfl (by decide) 160).2.1,
   (c2_due_job_single_dispatch 100 [jobA] 0 jobA 50 rfl rfl (by decide) 160).2.2.2⟩

/-- C5: the candidate wake time starts at `now + 1 minute` and is only ever
lowered, so the computed sleep duration never exceeds one minute. -/
theorem c5_sleep_bounded_by_minute (now : Int) (jobs : List Job) :
    (schedIter now jobs).2 ≤ now + oneMinute ∧ iterDelay now jobs ≤ oneMinute := by
  have h : (schedIter now jobs).2 ≤ now + oneMinute :=
    schedIterAux_nextMin_le now jobs (now + oneMinute)
  refine ⟨h, ?_⟩
  unfold iterDelay
  omega

/-- C7: a job whose `next` is `none` is skipped by every iteration without
being dispatched (`run_job`, the only source of per-dispatch diagnostics, is
never invoked for it) and without any change to its state or to `next_min`,
and it stays exactly unchanged at its position across arbitrarily many
loop iterations: it never fires again. -/
theorem c7_exhausted_job_never_fires (now m : Int) (j : Job) (nows : List Int)
    (jobs : List Job) (i : Nat) (hj : j.next = none) (hget : jobs[i]? = some j) :
    stepJobIter now m j = ⟨j, m, 0⟩ ∧
    (runLoop nows jobs)[i]? = some j := by
  exact ⟨stepJobIter_none hj, runLoop_preserve_none nows jobs i j hget hj⟩

/-- Witness for C7: an exhausted job survives three loop iterations
untouched. -/
theorem c7_exhausted_job_never_fires_witness :
    stepJobIter 5 65 jobExhausted = ⟨jobExhausted, 65, 0⟩ ∧
    (runLoop [0, 100, 10000] [jobExhausted])[0]? = some jobExhausted :=
  c7_exhausted_job_never_fires 5 65 jobExhausted [0, 100, 10000] [jobExhausted] 0 rfl rfl

/-- C8: the negative-sleep failure branch is unreachable: the candidate wake
time starts at `now + 1 minute` and only strictly-future fire times are folded
in with `min`, so the sleep duration is strictly positive and the
`to_std` conversion (whose `Err` case is what `.expect` would panic on) always
succeeds. -/
theorem c8_negative_sleep_unreachable (now : Int) (jobs : List Job) :
    0 < iterDelay now jobs ∧
    to_std (iterDelay now jobs) = some (iterDelay now jobs) := by
  have h : now < (schedIter now jobs).2 :=
    schedIterAux_now_lt now jobs (now + oneMinute) (by unfold oneMinute; omega)
  have hpos : 0 < iterDelay now jobs := by
    unfold iterDelay
    omega
  refine ⟨hpos, ?_⟩
  unfold to_std
  rw [if_neg (by omega)]

/-- C3 counterexample: on a negative sleep duration the loop does not
"sleep zero / continue": the `to_std` conversion takes its failure branch
(modelled by `none`), on which the code's
`.expect("unexpected negative sleep")` panics. -/
theorem c3_negative_sleep_cex : to_std (-1) = none := rfl

/-- C3 (amended): a zero sleep duration is converted successfully and the loop
sleeps zero and continues, but a negative duration makes the conversion fail
and the process panic via `expect`; the negative case can never arise in the
loop because the candidate wake time is always strictly after `now`. -/
theorem c3_zero_sleep_continues_negative_panics :
    to_std 0 = some 0 ∧
    (∀ d : Int, d < 0 → to_std d = none) ∧
    (∀ (now : Int) (jobs : List Job), 0 < iterDelay now jobs) := by
  refine ⟨rfl, ?_, ?_⟩
  · intro d hd
    unfold to_std
    rw [if_pos hd]
  · intro now jobs
    have h : now < (schedIter now jobs).2 :=
      schedIterAux_now_lt now jobs (now + oneMinute) (by unfold oneMinute; omega)
    unfold iterDelay
    omega

/-- Witness for the amended C3 at the concrete duration -7. -/
theorem c3_zero_sleep_continues_negative_panics_witness : to_std (-7) = none :=
  c3_zero_sleep_continues_negative_panics.2.1 (-7) (by decide)

end Pocketcron
